import Mathlib

/-!
Shallow embedding of the flag-identifier page (`src/pages/Home.tsx`).

JavaScript strings are modelled as `List Char`.  The core routine
`formatAnalysis` mirrors the eponymous function: split on newline, strip
the markdown characters `*`, `_`, `#` and backtick, trim, and classify
each line into one of four segment kinds.  The upload / analyze handlers
are modelled as explicit state transformers on the component state.
-/

namespace FlagIdentifier

/-- The characters removed by `line.replace(/[*_#`]/g, '')`. -/
def isMarkdownChar (c : Char) : Bool :=
  c = '*' || c = '_' || c = '#' || c = '\x60'

/-- The JavaScript whitespace class used by `String.prototype.trim` and `\s`:
`WhiteSpace` ∪ `LineTerminator` code points. -/
def isJsWhitespace (c : Char) : Bool :=
  c = ' ' || c = '\t' || c = '\n' || c = '\r' || c = '\x0b' || c = '\x0c' ||
  c = '\u00A0' || c = '\u1680' || (0x2000 ≤ c.toNat && c.toNat ≤ 0x200A) ||
  c = '\u2028' || c = '\u2029' || c = '\u202F' || c = '\u205F' ||
  c = '\u3000' || c = '\uFEFF'

/-- `line.replace(/[*_#`]/g, '')`: delete every markdown character. -/
def stripMarkdown (l : List Char) : List Char :=
  l.filter (fun c => !isMarkdownChar c)

/-- `String.prototype.trim`: drop JavaScript whitespace from both ends. -/
def jsTrim (l : List Char) : List Char :=
  ((l.dropWhile isJsWhitespace).reverse.dropWhile isJsWhitespace).reverse

/-- The clean line of step 1: `line.replace(/[*_#`]/g, '').trim()`. -/
def cleanOf (line : List Char) : List Char :=
  jsTrim (stripMarkdown line)

/-- `text.split(sep)` for a one-character separator: splitting the empty
string yields one empty part, and adjacent separators yield empty parts. -/
def splitOnChar (sep : Char) : List Char → List (List Char)
  | [] => [[]]
  | c :: cs =>
    match splitOnChar sep cs with
    | [] => [[]]
    | r :: rs => if c = sep then [] :: r :: rs else (c :: r) :: rs

/-- `parts.join(sep)` for a one-character separator. -/
def joinWith (sep : Char) : List (List Char) → List Char
  | [] => []
  | [p] => p
  | p :: q :: ps => p ++ sep :: joinWith sep (q :: ps)

/-- `/^\d+\./.test(l)`: one or more leading digits followed by a period.
The digit run `\d+` and `.` are disjoint, so the regex matches exactly
when the maximal leading digit run is nonempty and is followed by `.`. -/
def headerTest (l : List Char) : Prop :=
  l.takeWhile Char.isDigit ≠ [] ∧ (l.dropWhile Char.isDigit).head? = some '.'

instance (l : List Char) : Decidable (headerTest l) := by
  unfold headerTest; infer_instance

/-- `l.replace(/^\d+\.\s*/, '')`: if the line starts with digits and a
period, remove them together with the following whitespace run. -/
def dropNumberDot (l : List Char) : List Char :=
  if l.takeWhile Char.isDigit = [] then l
  else if (l.dropWhile Char.isDigit).head? = some '.' then
    (l.dropWhile Char.isDigit).tail.dropWhile isJsWhitespace
  else l

/-- One classified, renderable unit derived from one input line. -/
inductive Segment where
  | SectionHeader (title : List Char)
  | LabeledField (label value : List Char)
  | BulletItem (text : List Char)
  | Paragraph (text : List Char)
  deriving DecidableEq, Repr

/-- The classification cascade of the arrow function inside
`formatAnalysis`'s `.map`, taking the already-clean line: skip when
empty, header when `/^\d+\./`, labeled field when the line starts with
`-` and `includes(':')` (splitting `substring(1)` on `:` and joining the
parts after the first back with `:`), bullet when it merely starts with
`-`, paragraph otherwise. -/
def classifyClean (cl : List Char) : Option Segment :=
  if cl = [] then none
  else if headerTest cl then
    some (.SectionHeader (dropNumberDot cl))
  else if cl.head? = some '-' ∧ ':' ∈ cl then
    match splitOnChar ':' cl.tail with
    | [] => none
    | label :: valueParts =>
      some (.LabeledField (jsTrim label) (jsTrim (joinWith ':' valueParts)))
  else if cl.head? = some '-' then
    some (.BulletItem (jsTrim cl.tail))
  else some (.Paragraph cl)

/-- The body of the arrow function inside `formatAnalysis`'s `.map`:
clean the raw line, then classify; `none` stands for the source's
`null`. -/
def formatLine (line : List Char) : Option Segment :=
  classifyClean (cleanOf line)

/-- `formatAnalysis`: split on newline, classify each line, drop the
`null` entries (`.filter(Boolean)`). -/
def formatAnalysis (text : List Char) : List Segment :=
  (splitOnChar '\n' text).filterMap formatLine

/-- The prefix of `l` strictly before the first occurrence of `sep`. -/
def beforeFirst (sep : Char) (l : List Char) : List Char :=
  l.takeWhile (fun c => c != sep)

/-- The suffix of `l` strictly after the first occurrence of `sep`. -/
def afterFirst (sep : Char) (l : List Char) : List Char :=
  (l.dropWhile (fun c => c != sep)).tail

/-- All characters appearing in a segment's string fields. -/
def segChars : Segment → List Char
  | .SectionHeader t => t
  | .LabeledField l v => l ++ v
  | .BulletItem t => t
  | .Paragraph t => t

/-- The segment of a line whose clean form is nonempty (defaulting
arbitrarily on blank lines, where `formatLine` is `none`). -/
def segOf (l : List Char) : Segment :=
  (formatLine l).getD (Segment.Paragraph [])

/-! ## Component state and event handlers

The `Home` component keeps four pieces of `useState` state.  The two
handlers are modelled as state transformers; the asynchronous outcomes
(file read, service call) are passed in as explicit parameters. -/

/-- The four `useState` fields of the `Home` component. -/
structure AppState where
  image : Option (List Char)
  analysis : List Char
  loading : Bool
  error : Option (List Char)
  deriving DecidableEq, Repr

/-- What the upload handler sees of the selected file. -/
structure UploadedFile where
  type : List Char
  size : Nat
  deriving DecidableEq, Repr

/-- Outcome of `FileReader.readAsDataURL` on the selected file. -/
inductive ReadOutcome where
  | success (base64 : List Char)
  | failure
  deriving DecidableEq, Repr

/-- Outcome of the `analyzeImage` service call. -/
inductive AnalyzeOutcome where
  | success (result : List Char)
  | failure (message : List Char)
  deriving DecidableEq, Repr

/-- The size bound `20 * 1024 * 1024` of `handleImageUpload`. -/
def maxUploadSize : Nat := 20 * 1024 * 1024

/-- `file.type.startsWith('image/')`. -/
def isImageType (t : List Char) : Prop :=
  "image/".data.isPrefixOf t = true

instance (t : List Char) : Decidable (isImageType t) := by
  unfold isImageType; infer_instance

/-- `handleImageUpload`: validate the file, then read it.  Returns the
new state and, when the read succeeded past validation, `some base64`,
the argument with which `handleAnalyze` is invoked; `none` means no
analysis request is made. -/
def handleImageUpload (s : AppState) (f : UploadedFile) (read : ReadOutcome) :
    AppState × Option (List Char) :=
  if ¬ isImageType f.type then
    ({ s with error := some "Please upload a valid image file".data }, none)
  else if f.size > maxUploadSize then
    ({ s with error := some "Image size should be less than 20MB".data }, none)
  else
    match read with
    | .success b => ({ s with image := some b, error := none }, some b)
    | .failure =>
      ({ s with error := some "Failed to read the image file. Please try again.".data }, none)

/-- `handleAnalyze`: set loading, clear the error, run the service call,
store the result on success or the message on failure, clear loading. -/
def handleAnalyze (s : AppState) (outcome : AnalyzeOutcome) : AppState :=
  let s1 : AppState := { s with loading := true, error := none }
  match outcome with
  | .success r => { s1 with analysis := r, loading := false }
  | .failure m => { s1 with error := some m, loading := false }

/-- The composite flow of an upload: validation and read via
`handleImageUpload`, then — only when a request was actually made —
`handleAnalyze` with the service outcome. -/
def uploadAndAnalyze (s : AppState) (f : UploadedFile) (read : ReadOutcome)
    (outcome : AnalyzeOutcome) : AppState :=
  match handleImageUpload s f read with
  | (s1, some _) => handleAnalyze s1 outcome
  | (s1, none) => s1

/-! ## Lemmas about splitting and joining -/

theorem splitOnChar_ne_nil (sep : Char) (l : List Char) : splitOnChar sep l ≠ [] := by
  cases l with
  | nil => simp [splitOnChar]
  | cons c cs =>
    simp only [splitOnChar]
    rcases splitOnChar sep cs with _ | ⟨r, rs⟩
    · simp
    · by_cases hc : c = sep <;> simp [hc]

theorem splitOnChar_cons_eq (sep c : Char) {cs r : List Char} {rs : List (List Char)}
    (hs : splitOnChar sep cs = r :: rs) :
    splitOnChar sep (c :: cs) = if c = sep then [] :: r :: rs else (c :: r) :: rs := by
  simp only [splitOnChar, hs]

theorem splitOnChar_exists_cons (sep : Char) (l : List Char) :
    ∃ r rs, splitOnChar sep l = r :: rs := by
  rcases hs : splitOnChar sep l with _ | ⟨r, rs⟩
  · exact absurd hs (splitOnChar_ne_nil sep l)
  · exact ⟨r, rs, rfl⟩

theorem joinWith_splitOnChar (sep : Char) (l : List Char) :
    joinWith sep (splitOnChar sep l) = l := by
  induction l with
  | nil => rfl
  | cons c cs ih =>
    obtain ⟨r, rs, hs⟩ := splitOnChar_exists_cons sep cs
    rw [splitOnChar_cons_eq sep c hs]
    rw [hs] at ih
    by_cases hc : c = sep
    · rw [if_pos hc]
      show sep :: joinWith sep (r :: rs) = c :: cs
      rw [ih, hc]
    · rw [if_neg hc]
      cases rs with
      | nil =>
        show c :: r = c :: cs
        simp only [joinWith] at ih
        rw [ih]
      | cons q qs =>
        show (c :: r) ++ sep :: joinWith sep (q :: qs) = c :: cs
        simp only [joinWith] at ih
        rw [List.cons_append, ih]

theorem splitOnChar_of_not_mem (sep : Char) (l : List Char) (h : sep ∉ l) :
    splitOnChar sep l = [l] := by
  induction l with
  | nil => rfl
  | cons c cs ih =>
    have hc : ¬ c = sep := fun e => h (e ▸ List.mem_cons_self c cs)
    have hcs : sep ∉ cs := fun m => h (List.mem_cons_of_mem _ m)
    rw [splitOnChar_cons_eq sep c (ih hcs), if_neg hc]

theorem splitOnChar_of_mem (sep : Char) (l : List Char) (h : sep ∈ l) :
    ∃ parts, splitOnChar sep l = beforeFirst sep l :: parts ∧
      joinWith sep parts = afterFirst sep l := by
  induction l with
  | nil => cases h
  | cons c cs ih =>
    obtain ⟨r, rs, hs⟩ := splitOnChar_exists_cons sep cs
    by_cases hc : c = sep
    · refine ⟨r :: rs, ?_, ?_⟩
      · rw [splitOnChar_cons_eq sep c hs, if_pos hc]
        have hb : beforeFirst sep (c :: cs) = [] := by
          simp [beforeFirst, List.takeWhile_cons, hc]
        rw [hb]
      · have ha : afterFirst sep (c :: cs) = cs := by
          simp [afterFirst, List.dropWhile_cons, hc]
        rw [ha, ← hs, joinWith_splitOnChar]
    · have hcs : sep ∈ cs := by
        cases h with
        | head => exact absurd rfl hc
        | tail _ hm => exact hm
      obtain ⟨parts, h1, h2⟩ := ih hcs
      have hb : beforeFirst sep (c :: cs) = c :: beforeFirst sep cs := by
        simp [beforeFirst, List.takeWhile_cons, hc]
      have ha : afterFirst sep (c :: cs) = afterFirst sep cs := by
        have hcne : (c != sep) = true := by simp [hc]
        simp [afterFirst, List.dropWhile_cons, hcne]
      refine ⟨parts, ?_, by rw [ha]; exact h2⟩
      rw [splitOnChar_cons_eq sep c h1, if_neg hc, hb]

theorem mem_of_mem_splitOnChar {sep c : Char} :
    ∀ {l p : List Char}, p ∈ splitOnChar sep l → c ∈ p → c ∈ l := by
  intro l
  induction l with
  | nil =>
    intro p hp hc
    simp [splitOnChar] at hp
    subst hp; cases hc
  | cons a as ih =>
    intro p hp hc
    obtain ⟨r, rs, hs⟩ := splitOnChar_exists_cons sep as
    rw [splitOnChar_cons_eq sep a hs] at hp
    by_cases ha : a = sep
    · rw [if_pos ha] at hp
      cases hp with
      | head => cases hc
      | tail _ hp => exact List.mem_cons_of_mem _ (ih (hs ▸ hp) hc)
    · rw [if_neg ha] at hp
      cases hp with
      | head =>
        cases hc with
        | head => exact List.mem_cons_self _ _
        | tail _ hc =>
          exact List.mem_cons_of_mem _ (ih (hs ▸ List.mem_cons_self r rs) hc)
      | tail _ hp =>
        exact List.mem_cons_of_mem _ (ih (hs ▸ List.mem_cons_of_mem r hp) hc)

theorem mem_joinWith {sep c : Char} :
    ∀ {parts : List (List Char)}, c ∈ joinWith sep parts →
      c = sep ∨ ∃ p ∈ parts, c ∈ p
  | [], h => by cases h
  | [p], h => Or.inr ⟨p, List.mem_cons_self _ _, h⟩
  | p :: q :: ps, h => by
    rw [joinWith] at h
    rcases List.mem_append.mp h with h | h
    · exact Or.inr ⟨p, List.mem_cons_self _ _, h⟩
    · cases h with
      | head => exact Or.inl rfl
      | tail _ h =>
        rcases mem_joinWith h with h | ⟨p', hp', hc⟩
        · exact Or.inl h
        · exact Or.inr ⟨p', List.mem_cons_of_mem _ hp', hc⟩

/-! ## Lemmas about cleaning -/

theorem mem_of_mem_jsTrim {c : Char} {l : List Char} (h : c ∈ jsTrim l) : c ∈ l := by
  unfold jsTrim at h
  rw [List.mem_reverse] at h
  have h1 := (List.dropWhile_sublist _).subset h
  rw [List.mem_reverse] at h1
  exact (List.dropWhile_sublist _).subset h1

theorem mem_of_mem_dropNumberDot {c : Char} {l : List Char}
    (h : c ∈ dropNumberDot l) : c ∈ l := by
  unfold dropNumberDot at h
  by_cases h0 : l.takeWhile Char.isDigit = []
  · rwa [if_pos h0] at h
  rw [if_neg h0] at h
  by_cases h1 : (l.dropWhile Char.isDigit).head? = some '.'
  · rw [if_pos h1] at h
    have h2 := (List.dropWhile_sublist _).subset h
    have h3 := (List.tail_sublist _).subset h2
    exact (List.dropWhile_sublist _).subset h3
  · rwa [if_neg h1] at h

theorem mem_of_mem_stripMarkdown {c : Char} {l : List Char}
    (h : c ∈ stripMarkdown l) : c ∈ l :=
  (List.filter_sublist _).subset h

theorem not_markdown_of_mem_cleanOf {c : Char} {line : List Char}
    (h : c ∈ cleanOf line) : isMarkdownChar c = false := by
  have h1 : c ∈ stripMarkdown line := mem_of_mem_jsTrim h
  unfold stripMarkdown at h1
  have h2 := (List.mem_filter.mp h1).2
  simpa using h2

theorem count_stripMarkdown {c : Char} (hc : isMarkdownChar c = false)
    (l : List Char) : (stripMarkdown l).count c = l.count c := by
  unfold stripMarkdown
  exact List.count_filter (by simp [hc])

/-! ## Lemmas about `takeWhile` / `dropWhile` on a digit run -/

theorem takeWhile_append_all {α : Type} {p : α → Bool} :
    ∀ (ds : List α) (x : α) (rest : List α), (∀ c ∈ ds, p c = true) → p x = false →
      (ds ++ x :: rest).takeWhile p = ds
  | [], x, rest, _, hx => by simp [List.takeWhile_cons, hx]
  | d :: ds, x, rest, hall, hx => by
    have hd : p d = true := hall d (List.mem_cons_self _ _)
    rw [List.cons_append, List.takeWhile_cons, if_pos hd,
      takeWhile_append_all ds x rest (fun c hc => hall c (List.mem_cons_of_mem _ hc)) hx]

theorem dropWhile_append_all {α : Type} {p : α → Bool} :
    ∀ (ds : List α) (x : α) (rest : List α), (∀ c ∈ ds, p c = true) → p x = false →
      (ds ++ x :: rest).dropWhile p = x :: rest
  | [], x, rest, _, hx => by simp [List.dropWhile_cons, hx]
  | d :: ds, x, rest, hall, hx => by
    have hd : p d = true := hall d (List.mem_cons_self _ _)
    rw [List.cons_append, List.dropWhile_cons, if_pos hd,
      dropWhile_append_all ds x rest (fun c hc => hall c (List.mem_cons_of_mem _ hc)) hx]

/-! ## Branch lemmas for the classification cascade -/

theorem headerTest_digits_dot (ds rest : List Char) (hds : ds ≠ [])
    (hdig : ∀ c ∈ ds, c.isDigit = true) : headerTest (ds ++ '.' :: rest) := by
  have hdot : Char.isDigit '.' = false := by decide
  refine ⟨?_, ?_⟩
  · rw [takeWhile_append_all ds '.' rest hdig hdot]
    exact hds
  · rw [dropWhile_append_all ds '.' rest hdig hdot]
    rfl

theorem dropNumberDot_digits_dot (ds rest : List Char) (hds : ds ≠ [])
    (hdig : ∀ c ∈ ds, c.isDigit = true) :
    dropNumberDot (ds ++ '.' :: rest) = rest.dropWhile isJsWhitespace := by
  have hdot : Char.isDigit '.' = false := by decide
  have htw := takeWhile_append_all ds '.' rest hdig hdot
  have hdw := dropWhile_append_all ds '.' rest hdig hdot
  unfold dropNumberDot
  rw [htw, hdw, if_neg hds,
    if_pos (show ('.' :: rest).head? = some '.' from rfl)]
  rfl

theorem not_headerTest_dash (rest : List Char) : ¬ headerTest ('-' :: rest) := by
  rintro ⟨h1, -⟩
  apply h1
  have : Char.isDigit '-' = false := by decide
  simp [List.takeWhile_cons, this]

theorem classifyClean_header (ds rest : List Char) (hds : ds ≠ [])
    (hdig : ∀ c ∈ ds, c.isDigit = true) :
    classifyClean (ds ++ '.' :: rest) =
      some (.SectionHeader (rest.dropWhile isJsWhitespace)) := by
  have hne : ds ++ '.' :: rest ≠ [] := by
    cases ds <;> simp
  unfold classifyClean
  rw [if_neg hne, if_pos (headerTest_digits_dot ds rest hds hdig),
    dropNumberDot_digits_dot ds rest hds hdig]

theorem classifyClean_dash_colon (rest : List Char) (h2 : ':' ∈ rest) :
    classifyClean ('-' :: rest) =
      some (.LabeledField (jsTrim (beforeFirst ':' rest))
        (jsTrim (afterFirst ':' rest))) := by
  have hne : ('-' :: rest) ≠ [] := by simp
  have hcond : ('-' :: rest).head? = some '-' ∧ ':' ∈ ('-' :: rest) :=
    ⟨rfl, List.mem_cons_of_mem _ h2⟩
  unfold classifyClean
  rw [if_neg hne, if_neg (not_headerTest_dash rest), if_pos hcond]
  obtain ⟨parts, hp, hj⟩ := splitOnChar_of_mem ':' rest h2
  have ht : ('-' :: rest).tail = rest := rfl
  rw [ht, hp]
  show some (Segment.LabeledField (jsTrim (beforeFirst ':' rest))
    (jsTrim (joinWith ':' parts))) = _
  rw [hj]

theorem classifyClean_eq_none_iff (cl : List Char) :
    classifyClean cl = none ↔ cl = [] := by
  constructor
  · intro h
    by_cases h0 : cl = []
    · exact h0
    unfold classifyClean at h
    rw [if_neg h0] at h
    by_cases h1 : headerTest cl
    · rw [if_pos h1] at h; cases h
    rw [if_neg h1] at h
    by_cases h2 : cl.head? = some '-' ∧ ':' ∈ cl
    · rw [if_pos h2] at h
      obtain ⟨r, rs, hs⟩ := splitOnChar_exists_cons ':' cl.tail
      rw [hs] at h
      cases h
    rw [if_neg h2] at h
    by_cases h3 : cl.head? = some '-'
    · rw [if_pos h3] at h; cases h
    · rw [if_neg h3] at h; cases h
  · intro h; subst h; rfl

theorem formatLine_eq_none_iff (line : List Char) :
    formatLine line = none ↔ cleanOf line = [] := by
  unfold formatLine
  exact classifyClean_eq_none_iff (cleanOf line)

/-- Every character of a produced segment's fields already occurs in the
clean line the segment was classified from (or is the `:` rejoining the
split value parts, which the branch guard guarantees is in the line). -/
theorem mem_of_mem_segChars {cl : List Char} {seg : Segment} {c : Char}
    (hf : classifyClean cl = some seg) (hc : c ∈ segChars seg) : c ∈ cl := by
  by_cases h0 : cl = []
  · rw [(classifyClean_eq_none_iff cl).mpr h0] at hf
    cases hf
  unfold classifyClean at hf
  rw [if_neg h0] at hf
  by_cases h1 : headerTest cl
  · rw [if_pos h1] at hf
    cases hf
    exact mem_of_mem_dropNumberDot hc
  rw [if_neg h1] at hf
  by_cases h2 : cl.head? = some '-' ∧ ':' ∈ cl
  · rw [if_pos h2] at hf
    obtain ⟨label, parts, hs⟩ := splitOnChar_exists_cons ':' cl.tail
    rw [hs] at hf
    cases hf
    rcases List.mem_append.mp hc with hl | hv
    · have hml : c ∈ label := mem_of_mem_jsTrim hl
      have : c ∈ cl.tail :=
        mem_of_mem_splitOnChar (hs ▸ List.mem_cons_self label parts) hml
      exact (List.tail_sublist cl).subset this
    · have hmv : c ∈ joinWith ':' parts := mem_of_mem_jsTrim hv
      rcases mem_joinWith hmv with hcol | ⟨p, hp, hcp⟩
      · exact hcol ▸ h2.2
      · have : c ∈ cl.tail :=
          mem_of_mem_splitOnChar (hs ▸ List.mem_cons_of_mem label hp) hcp
        exact (List.tail_sublist cl).subset this
  rw [if_neg h2] at hf
  by_cases h3 : cl.head? = some '-'
  · rw [if_pos h3] at hf
    cases hf
    exact (List.tail_sublist cl).subset (mem_of_mem_jsTrim hc)
  · rw [if_neg h3] at hf
    cases hf
    exact hc

/-- The markdown characters can never reach a segment field. -/
theorem no_markdown_in_segments (text : List Char) (seg : Segment) (c : Char)
    (hseg : seg ∈ formatAnalysis text) (hc : c ∈ segChars seg) :
    isMarkdownChar c = false := by
  unfold formatAnalysis at hseg
  obtain ⟨line, -, hline⟩ := List.mem_filterMap.mp hseg
  unfold formatLine at hline
  exact not_markdown_of_mem_cleanOf (mem_of_mem_segChars hline hc)

/-! ## The shape of the produced segment list -/

/-- One segment per line with nonempty clean form, in input order. -/
theorem filterMap_formatLine_eq (ls : List (List Char)) :
    ls.filterMap formatLine
      = (ls.filter (fun l => !(cleanOf l).isEmpty)).map segOf := by
  induction ls with
  | nil => rfl
  | cons a ls ih =>
    by_cases ha : cleanOf a = []
    · have hn : formatLine a = none := (formatLine_eq_none_iff a).mpr ha
      have hb : (!(cleanOf a).isEmpty) = false := by simp [ha]
      rw [List.filterMap_cons_none hn, List.filter_cons_of_neg (by simp [hb]), ih]
    · obtain ⟨seg, hseg⟩ : ∃ seg, formatLine a = some seg := by
        rcases hf : formatLine a with _ | seg
        · exact absurd ((formatLine_eq_none_iff a).mp hf) ha
        · exact ⟨seg, rfl⟩
      have hb : (!(cleanOf a).isEmpty) = true := by
        simp [List.isEmpty_iff, ha]
      rw [List.filterMap_cons_some hseg, List.filter_cons_of_pos (by simp [hb]),
        List.map_cons, ih]
      have : segOf a = seg := by unfold segOf; rw [hseg]; rfl
      rw [this]

/-- Splitting a newline-free text yields the single line itself, so
`formatAnalysis` of such a text is the one classified segment. -/
theorem formatAnalysis_single (text : List Char) (h : '\n' ∉ text) :
    formatAnalysis text = (formatLine text).toList := by
  unfold formatAnalysis
  rw [splitOnChar_of_not_mem _ _ h]
  rcases hf : formatLine text with _ | seg
  · rw [List.filterMap_cons_none hf]; rfl
  · rw [List.filterMap_cons_some hf]; rfl

/-- A newline-free line whose clean form is a digit run, a period and a
remainder formats as the single section header carrying the remainder
with its leading whitespace removed. -/
theorem formatAnalysis_header_line (text ds rest : List Char) (hn : '\n' ∉ text)
    (hds : ds ≠ []) (hdig : ∀ c ∈ ds, c.isDigit = true)
    (hclean : cleanOf text = ds ++ '.' :: rest) :
    formatAnalysis text = [Segment.SectionHeader (rest.dropWhile isJsWhitespace)] := by
  rw [formatAnalysis_single text hn]
  unfold formatLine
  rw [hclean, classifyClean_header ds rest hds hdig]
  rfl

/-- A newline-free line whose clean form starts with a dash and contains
a colon formats as the single labeled field splitting at the first
colon. -/
theorem formatAnalysis_dash_colon_line (text rest : List Char) (hn : '\n' ∉ text)
    (h1 : cleanOf text = '-' :: rest) (h2 : ':' ∈ rest) :
    formatAnalysis text
      = [Segment.LabeledField (jsTrim (beforeFirst ':' rest))
          (jsTrim (afterFirst ':' rest))] := by
  rw [formatAnalysis_single text hn]
  unfold formatLine
  rw [h1, classifyClean_dash_colon rest h2]
  rfl

/-! ## Lemmas about the event handlers -/

theorem handleImageUpload_accepted (s : AppState) (f : UploadedFile) (b : List Char)
    (h1 : isImageType f.type) (h2 : f.size ≤ maxUploadSize) :
    handleImageUpload s f (.success b)
      = ({ s with image := some b, error := none }, some b) := by
  unfold handleImageUpload
  rw [if_neg (not_not_intro h1), if_neg (Nat.not_lt.mpr h2)]

theorem handleImageUpload_rejected (s : AppState) (f : UploadedFile) (r : ReadOutcome)
    (h : ¬ isImageType f.type ∨ f.size > maxUploadSize) :
    (handleImageUpload s f r).2 = none ∧
    (handleImageUpload s f r).1.image = s.image ∧
    (handleImageUpload s f r).1.analysis = s.analysis ∧
    ∃ msg, (handleImageUpload s f r).1.error = some msg := by
  unfold handleImageUpload
  by_cases h1 : isImageType f.type
  · have h2 : f.size > maxUploadSize := h.resolve_left (fun hn => hn h1)
    rw [if_neg (not_not_intro h1), if_pos h2]
    exact ⟨rfl, rfl, rfl, _, rfl⟩
  · rw [if_pos h1]
    exact ⟨rfl, rfl, rfl, _, rfl⟩

theorem handleAnalyze_failure (s : AppState) (m : List Char) :
    handleAnalyze s (.failure m) = { s with loading := false, error := some m } := rfl

theorem handleAnalyze_success (s : AppState) (r : List Char) :
    handleAnalyze s (.success r)
      = { s with loading := false, error := none, analysis := r } := rfl

/-! ## The claims -/

/-- Claim C1: for every clean line that starts with the dash marker and
contains a colon, `formatAnalysis` emits a single `LabeledField` whose
label is everything between the dash and the first colon, trimmed, and
whose value is everything after the first colon with internal colons
preserved verbatim (the remaining colon-delimited parts joined back
together equal exactly that suffix), trimmed. -/
theorem claim1_labeled_field_first_colon (text rest : List Char) (hn : '\n' ∉ text)
    (h1 : cleanOf text = '-' :: rest) (h2 : ':' ∈ rest) :
    formatAnalysis text
      = [Segment.LabeledField (jsTrim (beforeFirst ':' rest))
          (jsTrim (afterFirst ':' rest))] :=
  formatAnalysis_dash_colon_line text rest hn h1 h2

/-- Witness for C1 at the spec's example: only the first colon splits,
and the colon inside the value survives verbatim. -/
theorem claim1_labeled_field_first_colon_witness :
    ('\n' ∉ ("- Adoption Date: June 14, 1777 (original), July 4, 1960: current").data) ∧
    cleanOf ("- Adoption Date: June 14, 1777 (original), July 4, 1960: current").data
      = '-' :: (" Adoption Date: June 14, 1777 (original), July 4, 1960: current").data ∧
    (':' ∈ (" Adoption Date: June 14, 1777 (original), July 4, 1960: current").data) ∧
    formatAnalysis ("- Adoption Date: June 14, 1777 (original), July 4, 1960: current").data
      = [Segment.LabeledField ("Adoption Date").data
          ("June 14, 1777 (original), July 4, 1960: current").data] :=
  ⟨by decide, by decide, by decide,
    (claim1_labeled_field_first_colon
        ("- Adoption Date: June 14, 1777 (original), July 4, 1960: current").data
        (" Adoption Date: June 14, 1777 (original), July 4, 1960: current").data
        (by decide) (by decide) (by decide)).trans (by decide)⟩

/-- Claim C2 (amended): `formatAnalysis` emits exactly one segment, in
input-line order, for every line whose form after decoration stripping
and trimming is nonempty, and no segment for the lines that clean to
empty — note that blankness is judged after stripping, not merely after
trimming. -/
theorem claim2_one_segment_per_clean_line (text : List Char) :
    formatAnalysis text
      = ((splitOnChar '\n' text).filter (fun l => !(cleanOf l).isEmpty)).map segOf := by
  unfold formatAnalysis
  exact filterMap_formatLine_eq _

/-- Claim C2 as frozen is false: the line `***` is non-blank after
trimming yet produces no segment, because cleaning empties it. -/
theorem claim2_counterexample :
    jsTrim ("***".data) ≠ [] ∧ formatAnalysis ("***".data) = [] := by decide

/-- Claim C3 (amended): the upload handler accepts a file exactly when
its MIME type starts with `image/` and its size is at most 20 MB; a
rejected file sets a user-facing error and makes no analysis request.
The handler does not restrict the type to JPEG/PNG/WEBP — that list only
appears in the file picker's advisory `accept` attribute. -/
theorem claim3_intake_validation (s : AppState) (f : UploadedFile) (b : List Char)
    (r : ReadOutcome) :
    (isImageType f.type → f.size ≤ maxUploadSize →
      handleImageUpload s f (.success b)
        = ({ s with image := some b, error := none }, some b)) ∧
    (¬ isImageType f.type ∨ f.size > maxUploadSize →
      (handleImageUpload s f r).2 = none ∧
      ∃ msg, (handleImageUpload s f r).1.error = some msg) := by
  refine ⟨fun h1 h2 => handleImageUpload_accepted s f b h1 h2, fun h => ?_⟩
  obtain ⟨hn, -, -, hm⟩ := handleImageUpload_rejected s f r h
  exact ⟨hn, hm⟩

/-- Witness for C3 (amended): an accepted generic image type and a
rejected non-image type, both at concrete inputs. -/
theorem claim3_intake_validation_witness :
    (isImageType ("image/gif".data) ∧ (100 : Nat) ≤ maxUploadSize ∧
      handleImageUpload ⟨none, [], false, none⟩ ⟨"image/gif".data, 100⟩
          (.success "d".data)
        = (⟨some "d".data, [], false, none⟩, some "d".data)) ∧
    (¬ isImageType ("text/plain".data) ∧
      (handleImageUpload ⟨none, [], false, none⟩ ⟨"text/plain".data, 100⟩
          (.success "d".data)).2 = none) :=
  ⟨⟨by decide, by decide,
      (claim3_intake_validation ⟨none, [], false, none⟩ ⟨"image/gif".data, 100⟩
          "d".data (.success "d".data)).1 (by decide) (by decide)⟩,
    ⟨by decide,
      ((claim3_intake_validation ⟨none, [], false, none⟩ ⟨"text/plain".data, 100⟩
          "d".data (.success "d".data)).2 (Or.inl (by decide))).1⟩⟩

/-- Claim C3 as frozen is false: `image/gif` is not one of JPEG, PNG or
WEBP, yet the handler accepts it without error and an analysis request
is made for it. -/
theorem claim3_counterexample :
    ("image/gif".data ≠ "image/jpeg".data ∧ "image/gif".data ≠ "image/png".data ∧
      "image/gif".data ≠ "image/webp".data) ∧
    (handleImageUpload ⟨none, [], false, none⟩ ⟨"image/gif".data, 100⟩
        (.success "d".data)).2 = some "d".data ∧
    (handleImageUpload ⟨none, [], false, none⟩ ⟨"image/gif".data, 100⟩
        (.success "d".data)).1.error = none := by decide

/-- Claim C4 (amended): a failed analysis attempt leaves both the
displayed image and the analysis text unchanged, and a successful
request wholly replaces the analysis text; the image, however, is
wholly replaced already when the uploaded file is read, before the
request's outcome is known. -/
theorem claim4_failure_frame (s : AppState) (m res b : List Char) :
    (handleAnalyze s (.failure m)).image = s.image ∧
    (handleAnalyze s (.failure m)).analysis = s.analysis ∧
    (handleAnalyze s (.success res)).analysis = res ∧
    (∀ f : UploadedFile, isImageType f.type → f.size ≤ maxUploadSize →
      (handleImageUpload s f (.success b)).1.image = some b) := by
  refine ⟨rfl, rfl, rfl, fun f h1 h2 => ?_⟩
  rw [handleImageUpload_accepted s f b h1 h2]

/-- Witness for C4 (amended) at concrete inputs. -/
theorem claim4_failure_frame_witness :
    isImageType ("image/png".data) ∧ (100 : Nat) ≤ maxUploadSize ∧
    (handleAnalyze ⟨some "i".data, "a".data, false, none⟩
        (.failure "boom".data)).analysis = "a".data ∧
    (handleImageUpload ⟨some "i".data, "a".data, false, none⟩
        ⟨"image/png".data, 100⟩ (.success "new".data)).1.image = some "new".data :=
  ⟨by decide, by decide,
    (claim4_failure_frame ⟨some "i".data, "a".data, false, none⟩
        "boom".data "r".data "new".data).2.1,
    (claim4_failure_frame ⟨some "i".data, "a".data, false, none⟩
        "boom".data "r".data "new".data).2.2.2 ⟨"image/png".data, 100⟩
      (by decide) (by decide)⟩

/-- Claim C4 as frozen is false: after an upload whose analysis fails,
the displayed pair is partially updated — the image was replaced at
file-read time while the analysis kept its previous value, even though
no request succeeded. -/
theorem claim4_counterexample :
    (uploadAndAnalyze ⟨some "old".data, "oldAnalysis".data, false, none⟩
        ⟨"image/png".data, 100⟩ (.success "new".data) (.failure "boom".data)).image
      ≠ some "old".data ∧
    (uploadAndAnalyze ⟨some "old".data, "oldAnalysis".data, false, none⟩
        ⟨"image/png".data, 100⟩ (.success "new".data) (.failure "boom".data)).analysis
      = "oldAnalysis".data := by decide

/-- Claim C5: a clean line starting with one or more digits followed by
a period formats as a `SectionHeader` whose title is the clean line with
that numeric prefix and the following whitespace removed. -/
theorem claim5_section_header (text ds rest : List Char) (hn : '\n' ∉ text)
    (hds : ds ≠ []) (hdig : ∀ c ∈ ds, c.isDigit = true)
    (hclean : cleanOf text = ds ++ '.' :: rest) :
    formatAnalysis text = [Segment.SectionHeader (rest.dropWhile isJsWhitespace)] :=
  formatAnalysis_header_line text ds rest hn hds hdig hclean

/-- Witness for C5 at the spec's example. -/
theorem claim5_section_header_witness :
    ('\n' ∉ ("1. Flag Identification").data) ∧ ("1".data ≠ ([] : List Char)) ∧
    (∀ c ∈ "1".data, c.isDigit = true) ∧
    cleanOf ("1. Flag Identification").data
      = "1".data ++ '.' :: (" Flag Identification").data ∧
    formatAnalysis ("1. Flag Identification").data
      = [Segment.SectionHeader ("Flag Identification").data] :=
  ⟨by decide, by decide, by decide, by decide,
    (claim5_section_header ("1. Flag Identification").data "1".data
        (" Flag Identification").data
        (by decide) (by decide) (by decide) (by decide)).trans (by decide)⟩

/-- Claim C6: the decoration-stripping step never alters a colon or a
dash (their occurrence counts are preserved exactly), so classification
operates on content; in particular the example with surrounding
asterisks classifies as the expected labeled field. -/
theorem claim6_strip_preserves_colon_dash :
    (∀ line : List Char, (stripMarkdown line).count ':' = line.count ':' ∧
      (stripMarkdown line).count '-' = line.count '-') ∧
    formatAnalysis ("**- Colors**: Red, White, Blue".data)
      = [Segment.LabeledField ("Colors".data) ("Red, White, Blue".data)] :=
  ⟨fun line => ⟨count_stripMarkdown (by decide) line,
      count_stripMarkdown (by decide) line⟩, by decide⟩

/-- Claim C7: `formatAnalysis` is a total function — the empty string
yields the empty sequence, and every input yields a segment list of at
most one segment per split line. -/
theorem claim7_totality (s : List Char) :
    formatAnalysis ([] : List Char) = [] ∧
    (formatAnalysis s).length ≤ (splitOnChar '\n' s).length := by
  refine ⟨by decide, ?_⟩
  unfold formatAnalysis
  exact List.length_filterMap_le _ _

/-- Claim C8: when intake rejects a file (non-image type or oversize),
an error is reported, no analysis request is made, and the previously
displayed image and analysis are left unchanged. -/
theorem claim8_rejection_frame (s : AppState) (f : UploadedFile) (r : ReadOutcome)
    (h : ¬ isImageType f.type ∨ f.size > maxUploadSize) :
    (handleImageUpload s f r).2 = none ∧
    (handleImageUpload s f r).1.image = s.image ∧
    (handleImageUpload s f r).1.analysis = s.analysis ∧
    ∃ msg, (handleImageUpload s f r).1.error = some msg :=
  handleImageUpload_rejected s f r h

/-- Witness for C8: a rejected text file leaves the state intact. -/
theorem claim8_rejection_frame_witness :
    (¬ isImageType ("text/plain".data) ∨ (5 : Nat) > maxUploadSize) ∧
    ((handleImageUpload ⟨some "img".data, "a".data, false, none⟩
        ⟨"text/plain".data, 5⟩ .failure).2 = none ∧
      (handleImageUpload ⟨some "img".data, "a".data, false, none⟩
          ⟨"text/plain".data, 5⟩ .failure).1.image = some "img".data ∧
      (handleImageUpload ⟨some "img".data, "a".data, false, none⟩
          ⟨"text/plain".data, 5⟩ .failure).1.analysis = "a".data ∧
      ∃ msg, (handleImageUpload ⟨some "img".data, "a".data, false, none⟩
          ⟨"text/plain".data, 5⟩ .failure).1.error = some msg) :=
  ⟨Or.inl (by decide),
    claim8_rejection_frame ⟨some "img".data, "a".data, false, none⟩
      ⟨"text/plain".data, 5⟩ .failure (Or.inl (by decide))⟩

/-- Claim C9: cleaning deletes every occurrence of `*`, `_`, `#` and
backtick anywhere in the line, so none of those characters can appear in
any emitted segment field; in particular a `#` inside a hex color value
is deleted. -/
theorem claim9_markdown_never_in_output :
    (∀ (text : List Char) (seg : Segment) (c : Char), seg ∈ formatAnalysis text →
      c ∈ segChars seg → isMarkdownChar c = false) ∧
    formatAnalysis ("- Hex: #FF0000".data)
      = [Segment.LabeledField ("Hex".data) ("FF0000".data)] :=
  ⟨no_markdown_in_segments, by decide⟩

/-- Witness for C9: a concrete segment, member and character. -/
theorem claim9_markdown_never_in_output_witness :
    Segment.LabeledField ("Hex".data) ("FF0000".data)
      ∈ formatAnalysis ("- Hex: #FF0000".data) ∧
    'H' ∈ segChars (Segment.LabeledField ("Hex".data) ("FF0000".data)) ∧
    isMarkdownChar 'H' = false :=
  ⟨by decide, by decide,
    claim9_markdown_never_in_output.1 ("- Hex: #FF0000".data)
      (Segment.LabeledField ("Hex".data) ("FF0000".data)) 'H'
      (by decide) (by decide)⟩

/-- Claim C10: any line whose clean form begins with digits immediately
followed by a period is classified as a `SectionHeader`, even an
ordinary sentence starting with a decimal number — only the digits, the
first period and the following whitespace are removed to form the
title. -/
theorem claim10_decimal_sentence_header :
    (∀ text ds rest : List Char, '\n' ∉ text → ds ≠ [] →
      (∀ c ∈ ds, c.isDigit = true) → cleanOf text = ds ++ '.' :: rest →
      formatAnalysis text = [Segment.SectionHeader (rest.dropWhile isJsWhitespace)]) ∧
    formatAnalysis ("3.5 meters is the official width".data)
      = [Segment.SectionHeader ("5 meters is the official width".data)] :=
  ⟨fun text ds rest hn hds hdig hclean =>
      formatAnalysis_header_line text ds rest hn hds hdig hclean, by decide⟩

/-- Witness for C10 at the decimal-number sentence. -/
theorem claim10_decimal_sentence_header_witness :
    ('\n' ∉ ("3.5 meters is the official width").data) ∧
    ("3".data ≠ ([] : List Char)) ∧ (∀ c ∈ "3".data, c.isDigit = true) ∧
    cleanOf ("3.5 meters is the official width").data
      = "3".data ++ '.' :: ("5 meters is the official width").data ∧
    formatAnalysis ("3.5 meters is the official width").data
      = [Segment.SectionHeader ("5 meters is the official width").data] :=
  ⟨by decide, by decide, by decide, by decide,
    (claim10_decimal_sentence_header.1 ("3.5 meters is the official width").data
        "3".data ("5 meters is the official width").data (by decide) (by decide)
        (by decide) (by decide)).trans (by decide)⟩

end FlagIdentifier
